import Mathlib

/-!
# vs-filters: verification of the filter-sidecar model

A shallow embedding of the core of `src/filtersTree.ts` (the
`FiltersTreeDataProvider` of the vs-filters extension): the parsed
`.vcxproj.filters` document model produced by fast-xml-parser, the tree
builder, and the mutation operations, together with theorems about the
frozen claims.

JavaScript strings are modelled by Lean `String`; a JS string operation
`s.op(...)` is embedded as a function on the underlying character list
`s.data`, which agrees with the JS semantics on the (ASCII) inputs this
code handles.
-/

namespace VSFilters

/-! ## JS string primitives -/

/-- JS `s.startsWith(p)`: plain character-wise prefix test, no separator
boundary of any kind. -/
def jsStartsWith (s p : String) : Bool := p.data.isPrefixOf s.data

/-- Substring scan used by `jsIncludes`. -/
def containsSub (needle : List Char) : List Char → Bool
  | [] => needle.isEmpty
  | c :: rest => needle.isPrefixOf (c :: rest) || containsSub needle rest

/-- JS `s.includes(p)`: substring containment. -/
def jsIncludes (s p : String) : Bool := containsSub p.data s.data

/-- JS `s.substring(n)`: drop the first `n` characters. -/
def jsSubstrFrom (s : String) (n : Nat) : String := String.mk (s.data.drop n)

/-- Split a character list at the LAST occurrence of `ch`:
`some (before, after)`, or `none` when `ch` does not occur.  This is
`s.lastIndexOf(ch)` followed by the two `substring` calls. -/
def splitLastCh (ch : Char) : List Char → Option (List Char × List Char)
  | [] => none
  | c :: rest =>
    match splitLastCh ch rest with
    | some (par, leaf) => some (c :: par, leaf)
    | none => if c = ch then some ([], rest) else none

/-- `splitLastCh` at the reserved separator, as used by `ensureNode` and
by `moveFilterToParent`'s name extraction. -/
def splitLastBSAux : List Char → Option (List Char × List Char) :=
  splitLastCh '\\'

/-- String version of `splitLastBSAux`. -/
def splitLastBS (s : String) : Option (String × String) :=
  (splitLastBSAux s.data).map (fun pl => (String.mk pl.1, String.mk pl.2))

/-- JS `s.split('\\')` on the character list. -/
def jsSplitBSAux : List Char → List (List Char)
  | [] => [[]]
  | c :: rest =>
    let r := jsSplitBSAux rest
    if c = '\\' then [] :: r
    else
      match r with
      | [] => [[c]]
      | h :: t => (c :: h) :: t

/-- JS `s.split('\\')`. -/
def jsSplitBS (s : String) : List String := (jsSplitBSAux s.data).map String.mk

/-- JS `s.replace(/\\/g, '/')`. -/
def bsToSlash (s : String) : String :=
  String.mk (s.data.map (fun c => if c = '\\' then '/' else c))

/-- JS `s.toLowerCase()` on ASCII. -/
def toLowerStr (s : String) : String := String.mk (s.data.map Char.toLower)

/-! ## The parsed sidecar document

fast-xml-parser (with `ignoreAttributes: false, attributeNamePrefix: '@_'`)
represents a repeated XML element as a JS array and a single occurrence as
a bare object.  `SA` captures this scalar-or-array shape. -/

/-- Scalar-or-array value, as produced and consumed by the codec. -/
inductive SA (α : Type) where
  | scalar (a : α)
  | array (xs : List α)
deriving DecidableEq

/-- JS `Array.isArray(x) ? x : [x]`. -/
def SA.toList {α : Type} : SA α → List α
  | .scalar a => [a]
  | .array xs => xs

/-- Shape-preserving map, modelling in-place mutation of each element. -/
def SA.mapSA {α : Type} (f : α → α) : SA α → SA α
  | .scalar a => .scalar (f a)
  | .array xs => .array (xs.map f)

/-- JS truthiness of a scalar-or-array string value: an empty string is
falsy, an array (being an object) is always truthy. -/
def saTruthy : SA String → Bool
  | .scalar s => s ≠ ""
  | .array _ => true

/-- JS `Array.isArray(filter) ? filter[filter.length - 1] : filter` — the
"last `<Filter>` tag wins" read.  fast-xml-parser never produces an empty
array, so the `""` default of that case is unreachable. -/
def SA.lastString : SA String → String
  | .scalar s => s
  | .array xs => xs.getLastD ""

/-- One parsed element: a `<Filter Include=.../>` definition (tag
`"Filter"`, with `uid` = its `<UniqueIdentifier>` child) or a file entry
(`ClCompile`/`ClInclude`/... with an optional `<Filter>` child). -/
structure Entry where
  includeAttr : Option String := none
  filterRef : Option (SA String) := none
  uid : Option String := none
deriving DecidableEq

/-- One `<ItemGroup>`: a JS object mapping tag names to entries, in key
insertion order. -/
abbrev Group := List (String × SA Entry)

/-- `data.Project`. -/
structure Project where
  itemGroup : Option (SA Group)
deriving DecidableEq

/-- The whole parsed document (`data`). -/
structure Doc where
  project : Option Project
deriving DecidableEq

/-- The groups the loops iterate over:
`Array.isArray(ItemGroup) ? ItemGroup : [ItemGroup]`, or nothing when
`!data.Project || !data.Project.ItemGroup`. -/
def docGroups (doc : Doc) : List Group :=
  match doc.project with
  | none => []
  | some proj =>
    match proj.itemGroup with
    | none => []
    | some ig => ig.toList

/-- `group[tag]` read (JS object key lookup; keys are unique). -/
def getTag (g : Group) (tag : String) : Option (SA Entry) :=
  (g.find? (fun p => p.1 = tag)).map (fun p => p.2)

/-- Whether a group has a (necessarily truthy) value under `tag`. -/
def hasTag (g : Group) (tag : String) : Bool := (getTag g tag).isSome

/-- The `length 0 → delete key; length 1 → scalar; else array` write-back
convention shared by the mutation operations. -/
def collapseTag (kept : List Entry) : Option (SA Entry) :=
  match kept with
  | [] => none
  | [x] => some (.scalar x)
  | xs => some (.array xs)

/-- Drop item groups that became empty, then collapse
`data.Project.ItemGroup`: `length 0 → delete; length 1 → scalar`. -/
def cleanupEmptyGroups (gs : List Group) : Option (SA Group) :=
  match gs.filter (fun g => !g.isEmpty) with
  | [] => none
  | [g] => some (.scalar g)
  | l => some (.array l)

/-! ## `removeFilterFromXML` (extension.ts lines 1099–1154)

Deleting a filter removes every `<Filter>` definition and every file
association selected by a plain `startsWith(filterPath)` test — the code
does NOT append the `'\\'` separator to the prefix being tested. -/

/-- `!f['@_Include']?.startsWith(filterPath)`: keep a definition whose
`Include` attribute is absent or does not start with `filterPath`. -/
def keepFilterDef (filterPath : String) (f : Entry) : Bool :=
  match f.includeAttr with
  | none => true
  | some s => !jsStartsWith s filterPath

/-- `if (!filter) return true; return !filterString.startsWith(filterPath)`:
keep a file item whose `Filter` child is absent or falsy, or whose
last-wins filter string does not start with `filterPath`. -/
def keepFileItem (filterPath : String) (item : Entry) : Bool :=
  match item.filterRef with
  | none => true
  | some fr =>
    if saTruthy fr then !jsStartsWith fr.lastString filterPath else true

/-- One group of `removeFilterFromXML`: filter the `Filter` definitions and
every other tag's items, collapsing each tag afterwards. -/
def removeFromGroup (filterPath : String) (g : Group) : Group :=
  g.filterMap (fun p =>
    let kept := p.2.toList.filter
      (fun e => if p.1 = "Filter" then keepFilterDef filterPath e
                else keepFileItem filterPath e)
    (collapseTag kept).map (fun sa => (p.1, sa)))

/-- `removeFilterFromXML`: the document written back by `deleteFilter`.
Early-returns the unchanged document when `Project`/`ItemGroup` is
missing. -/
def removeFilterFromXML (doc : Doc) (filterPath : String) : Doc :=
  match doc.project with
  | none => doc
  | some proj =>
    match proj.itemGroup with
    | none => doc
    | some ig =>
      let groups := (ig.toList).map (removeFromGroup filterPath)
      { project := some { itemGroup := cleanupEmptyGroups groups } }

/-! ## `moveFilterInXML` (lines 1246–1299)

The rename pass of a filter move.  Unlike `removeFilterFromXML`, this one
DOES use the separator as a boundary: exact match, or prefix
`oldFilterPath + '\\'`. -/

/-- Rewrite one `<Filter>` definition for `moveFilterInXML`. -/
def rewriteFilterDef (oldP newP : String) (f : Entry) : Entry :=
  match f.includeAttr with
  | none => f
  | some inc =>
    if inc = oldP then { f with includeAttr := some newP }
    else if inc ≠ "" && jsStartsWith inc (oldP ++ "\\") then
      let rel := jsSubstrFrom inc (oldP.length + 1)
      { f with includeAttr := some (newP ++ "\\" ++ rel) }
    else f

/-- Rewrite one file item's `Filter` reference for `moveFilterInXML`. -/
def rewriteFileItem (oldP newP : String) (item : Entry) : Entry :=
  match item.filterRef with
  | none => item
  | some fr =>
    if saTruthy fr then
      let fv := fr.lastString
      if fv = oldP then { item with filterRef := some (.scalar newP) }
      else if fv ≠ "" && jsStartsWith fv (oldP ++ "\\") then
        let rel := jsSubstrFrom fv (oldP.length + 1)
        { item with filterRef := some (.scalar (newP ++ "\\" ++ rel)) }
      else item
    else item

/-- One group of `moveFilterInXML`; entries are mutated in place, so every
scalar-or-array shape is preserved. -/
def moveInGroup (oldP newP : String) (g : Group) : Group :=
  g.map (fun p =>
    if p.1 = "Filter" then (p.1, p.2.mapSA (rewriteFilterDef oldP newP))
    else (p.1, p.2.mapSA (rewriteFileItem oldP newP)))

/-- `moveFilterInXML`: rewrite every definition and reference under
`oldFilterPath` to live under `newFilterPath`. -/
def moveFilterInXML (doc : Doc) (oldP newP : String) : Doc :=
  match doc.project with
  | none => doc
  | some proj =>
    match proj.itemGroup with
    | none => doc
    | some ig =>
      { project := some { itemGroup := some (ig.mapSA (moveInGroup oldP newP)) } }

/-! ## `moveFilterToParent` (lines 1012–1048)

The cycle check is `targetParentPath.startsWith(sourceFilterPath)` — a
plain prefix test against the current source path, before any rewrite.  A
rejected move returns before `moveFilterInXML`, so nothing is written. -/

/-- `moveFilterToParent` at the level of filter paths.  The Bool records
whether the move was performed (`false` = rejected, sidecar untouched). -/
def moveFilterToParent (doc : Doc) (sourceFilterPath targetParentPath : String) :
    Doc × Bool :=
  if jsStartsWith targetParentPath sourceFilterPath then (doc, false)
  else if sourceFilterPath = "" then (doc, false)
  else
    let filterName :=
      match (jsSplitBS sourceFilterPath).getLast? with
      | some s => if s ≠ "" then s else sourceFilterPath
      | none => sourceFilterPath
    let newFilterPath :=
      if targetParentPath ≠ "" then targetParentPath ++ "\\" ++ filterName
      else filterName
    (moveFilterInXML doc sourceFilterPath newFilterPath, true)

/-! ## `updateFileFilterInXML` (lines 1159–1241) and the item-type choice -/

/-- The compiled-source extensions of line 1200. -/
def compiledExts : List String := [".cpp", ".c", ".cc", ".cxx"]

/-- The resource-script extensions of line 1202. -/
def resourceExts : List String := [".rc", ".rc2"]

/-- The text-like extensions of line 1204. -/
def textExts : List String := [".txt", ".md", ".xml", ".json"]

/-- The basename of a path: the segment after the last separator (both
separators recognised, so backslash-relative paths give the same answer
as in the host). -/
def baseNameChars (s : List Char) : List Char :=
  match splitLastCh '/' (s.map (fun c => if c = '\\' then '/' else c)) with
  | none => s
  | some (_, leaf) =>
    (s.drop (s.length - leaf.length))

/-- `path.extname`: the suffix of the basename from its last `'.'`, empty
when the basename has no dot or only a leading dot. -/
def jsExtname (s : String) : String :=
  let b := baseNameChars s.data
  match splitLastCh '.' b with
  | none => ""
  | some (pre, post) => if pre.isEmpty then "" else String.mk ('.' :: post)

/-- Lines 1196–1206: the element tag auto-selected for a new association.
`'ClInclude'` (the header type) is the DEFAULT; the `Text` tag is used
only for the four extensions of `textExts`. -/
def itemTypeFor (filePath : String) : String :=
  let extension := toLowerStr (jsExtname filePath)
  if compiledExts.contains extension then "ClCompile"
  else if resourceExts.contains extension then "ResourceCompile"
  else if textExts.contains extension then "Text"
  else "ClInclude"

/-- The update applied to every matching item:
`if (newFilterPath) item.Filter = newFilterPath else delete item.Filter`. -/
def setFilterOnMatch (filePath newFilterPath : String) (item : Entry) : Entry :=
  if item.includeAttr = some filePath then
    if newFilterPath ≠ "" then { item with filterRef := some (.scalar newFilterPath) }
    else { item with filterRef := none }
  else item

/-- Whether some non-`Filter` item of some group has this `Include` — the
`fileFound` flag of `updateFileFilterInXML`. -/
def docContainsInclude (doc : Doc) (filePath : String) : Bool :=
  (docGroups doc).any (fun g =>
    g.any (fun p => p.1 ≠ "Filter" && p.2.toList.any
      (fun it => it.includeAttr = some filePath)))

/-- Append an entry to `targetGroup[itemType]`: an array is pushed onto, a
scalar becomes a two-element array. -/
def SA.pushEntry (sa : SA Entry) (e : Entry) : SA Entry :=
  match sa with
  | .scalar x => .array [x, e]
  | .array xs => .array (xs ++ [e])

/-- `groups.find(...)` followed by in-place mutation: rewrite the first
element satisfying `p`. -/
def mapFirstWhere {α : Type} (p : α → Bool) (f : α → α) : List α → List α
  | [] => []
  | a :: as => if p a then f a :: as else a :: mapFirstWhere p f as

/-- The fresh association entry created when the file has no entry yet. -/
def newFileItem (filePath newFilterPath : String) : Entry :=
  { includeAttr := some filePath,
    filterRef := if newFilterPath ≠ "" then some (.scalar newFilterPath) else none }

/-- `updateFileFilterInXML`: update the filter of every existing entry for
`filePath`; if none exists, create one under the extension-selected tag,
in the first group already holding that tag or in a fresh group appended
at the end. -/
def updateFileFilterInXML (doc : Doc) (filePath newFilterPath : String) : Doc :=
  let ig? : Option (SA Group) :=
    match doc.project with
    | none => none
    | some proj => proj.itemGroup
  let groups := docGroups doc
  if docContainsInclude doc filePath then
    -- in-place item mutation: the ItemGroup and tag shapes are preserved
    let upd : Group → Group := fun g =>
      g.map (fun p =>
        if p.1 = "Filter" then p
        else (p.1, p.2.mapSA (setFilterOnMatch filePath newFilterPath)))
    { project := some { itemGroup := ig?.map (SA.mapSA upd) } }
  else
    let itemType := itemTypeFor filePath
    let newItem := newFileItem filePath newFilterPath
    let groups' :=
      if groups.any (fun g => hasTag g itemType) then
        mapFirstWhere (fun g => hasTag g itemType)
          (fun g => mapFirstWhere (fun p => p.1 = itemType)
            (fun p => (p.1, p.2.pushEntry newItem)) g)
          groups
      else groups ++ [[(itemType, .scalar newItem)]]
    let ig' : SA Group :=
      match groups' with
      | [g] => .scalar g
      | l => .array l
    { project := some { itemGroup := some ig' } }

/-! ## `generateGuid` (lines 1304–1310) and `addFilterToXML` (1053–1094) -/

/-- The template whose `x`/`y` characters are replaced. -/
def guidTemplate : List Char := "xxxxxxxx-xxxx-4xxx-yxxx-xxxxxxxxxxxx".data

/-- `v.toString(16)` for a nibble `v < 16`. -/
def hexDigit (n : Nat) : Char :=
  if n < 10 then Char.ofNat (48 + n) else Char.ofNat (87 + n)

/-- The replacement pass of `generateGuid`: `rand i` models the `i`-th
`Math.random() * 16 | 0` draw; an `x` becomes the raw nibble, a `y`
becomes `(r & 0x3 | 0x8)`, everything else is kept. -/
def generateGuidAux (rand : Nat → Nat) : List Char → Nat → List Char
  | [], _ => []
  | c :: rest, i =>
    if c = 'x' then hexDigit (rand i) :: generateGuidAux rand rest (i + 1)
    else if c = 'y' then
      hexDigit (Nat.lor (Nat.land (rand i) 3) 8) :: generateGuidAux rand rest (i + 1)
    else c :: generateGuidAux rand rest i

/-- `generateGuid`, parameterised by the random nibble stream. -/
def generateGuid (rand : Nat → Nat) : String :=
  String.mk (generateGuidAux rand guidTemplate 0)

/-- The definition entry pushed by `addFilterToXML`. -/
def newFilterDef (filterPath : String) (rand : Nat → Nat) : Entry :=
  { includeAttr := some filterPath,
    uid := some ("\x7b" ++ generateGuid rand ++ "\x7d") }

/-- The update applied to `filterGroup.Filter`: normalise to an array and
push a new definition unless `filterPath` is already defined THERE. -/
def addDefToFilterPair (filterPath : String) (rand : Nat → Nat)
    (pr : String × SA Entry) : String × SA Entry :=
  let filters := pr.2.toList
  if filters.any (fun f => f.includeAttr = some filterPath) then
    (pr.1, .array filters)
  else
    (pr.1, .array (filters ++ [newFilterDef filterPath rand]))

/-- `addFilterToXML`: normalise `ItemGroup` to an array, find the FIRST
group holding a `Filter` key (creating one at the end if none), and apply
`addDefToFilterPair` to its `Filter` value. -/
def addFilterToXML (doc : Doc) (filterPath : String) (rand : Nat → Nat) : Doc :=
  let groups := docGroups doc
  let groups' :=
    if groups.any (fun g => hasTag g "Filter") then
      mapFirstWhere (fun g => hasTag g "Filter")
        (fun g => mapFirstWhere (fun p => p.1 = "Filter")
          (addDefToFilterPair filterPath rand) g)
        groups
    else groups ++ [[("Filter", .array [newFilterDef filterPath rand])]]
  { project := some { itemGroup := some (.array groups') } }

/-- `createFilter` (lines 658–684): compute
`parentPath ? parentPath + '\\' + name : name` and add it. -/
def createFilter (doc : Doc) (parentPath filterName : String) (rand : Nat → Nat) : Doc :=
  let newFilterPath :=
    if parentPath ≠ "" then parentPath ++ "\\" ++ filterName else filterName
  addFilterToXML doc newFilterPath rand

/-! ## `cleanupStaleFileReferences` (lines 1315–1377)

The self-healing pass: every non-`Filter` item whose `Include` does not
resolve to an existing FILE on disk is dropped; the sidecar is written
back only when something was dropped. -/

/-- Outcome of `vscode.workspace.fs.stat`: an existing file, an existing
non-file (directory), or a throw (missing path). -/
inductive FsStat where
  | file
  | dir
  | missing
deriving DecidableEq

/-- Keep an item when it has no truthy `Include`, or its `Include`
resolves (separator-normalised) to an existing file. -/
def keepExisting (stat : String → FsStat) (item : Entry) : Bool :=
  match item.includeAttr with
  | none => true
  | some inc =>
    if inc ≠ "" then decide (stat (bsToSlash inc) = FsStat.file) else true

/-- One group of the cleanup pass; the Bool records whether any item of
this group was dropped (the per-item `hasChanges` writes). -/
def cleanupGroup (stat : String → FsStat) : Group → Group × Bool
  | [] => ([], false)
  | p :: rest =>
    let pr := cleanupGroup stat rest
    if p.1 = "Filter" then (p :: pr.1, pr.2)
    else
      let items := p.2.toList
      let valid := items.filter (keepExisting stat)
      let ch := pr.2 || !decide (valid.length = items.length)
      match collapseTag valid with
      | none => (pr.1, ch)
      | some sa => ((p.1, sa) :: pr.1, ch)

/-- `cleanupStaleFileReferences`: the resulting sidecar content together
with whether a write happened.  Without changes nothing is written, so the
on-disk document is the unchanged input. -/
def cleanupStaleFileReferences (stat : String → FsStat) (doc : Doc) : Doc × Bool :=
  match doc.project with
  | none => (doc, false)
  | some proj =>
    match proj.itemGroup with
    | none => (doc, false)
    | some ig =>
      let processed := ig.toList.map (cleanupGroup stat)
      if processed.any (fun pr => pr.2) then
        ({ project := some { itemGroup := cleanupEmptyGroups (processed.map (fun pr => pr.1)) } },
         true)
      else (doc, false)

/-! ## `buildTree` (lines 749–888)

The read path: collect file→filter associations and explicit filter
definitions, synthesize folder nodes with `ensureNode`, place `FileNode`s
for files that exist on disk, and record "known filtered" paths. -/

/-- The `items` collection loop (lines 776–800): every entry of every tag
with a truthy `Include` and a truthy `Filter` child contributes an
`(include, filter)` record, the last `<Filter>` winning. -/
def collectItems (doc : Doc) : List (String × String) :=
  (docGroups doc).flatMap (fun g =>
    g.flatMap (fun p =>
      p.2.toList.filterMap (fun e =>
        match e.includeAttr, e.filterRef with
        | some inc, some fr =>
          if inc ≠ "" && saTruthy fr then some (inc, fr.lastString) else none
        | _, _ => none)))

/-- The explicit-definitions pass (lines 827–843): every truthy `Include`
of every `Filter` entry. -/
def collectFilterDefs (doc : Doc) : List String :=
  (docGroups doc).flatMap (fun g =>
    match getTag g "Filter" with
    | none => []
    | some sa =>
      sa.toList.filterMap (fun fd =>
        match fd.includeAttr with
        | some fp => if fp ≠ "" then some fp else none
        | none => none))

/-- The folder-node store built by `ensureNode`: the keys of `nodeMap`
(insertion order; `""` is the root) and, for each created node, the edge
`(parent path, node path, display name)` recording
`parentNode.children.push(folderNode)`. -/
structure BuildState where
  nodePaths : List String
  edges : List (String × String × String)
deriving DecidableEq

/-- `nodeMap.set('', root)`. -/
def initState : BuildState := { nodePaths := [""], edges := [] }

/-- Everything before the last backslash (`""` when there is none). -/
def parentPathOf (p : String) : String :=
  match splitLastBS p with
  | none => ""
  | some pr => pr.1

/-- Everything after the last backslash (`p` itself when there is none). -/
def leafNameOf (p : String) : String :=
  match splitLastBS p with
  | none => p
  | some pr => pr.2

theorem splitLastCh_length {ch : Char} :
    ∀ {l a b : List Char}, splitLastCh ch l = some (a, b) →
      a.length + 1 + b.length = l.length := by
  intro l
  induction l with
  | nil => intro a b h; simp [splitLastCh] at h
  | cons c rest ih =>
    intro a b h
    simp only [splitLastCh] at h
    cases hr : splitLastCh ch rest with
    | some pr =>
      rw [hr] at h
      cases h
      have := ih hr
      simp at this ⊢
      omega
    | none =>
      rw [hr] at h
      by_cases hc : c = ch
      · simp [hc] at h
        obtain ⟨ha, hb⟩ := h
        subst ha
        subst hb
        simp [Nat.add_comm]
      · simp [hc] at h

theorem parentPathOf_length_lt (p : String) (h : p ≠ "") :
    (parentPathOf p).length < p.length := by
  obtain ⟨l⟩ := p
  have hd : l ≠ [] := by
    intro hnil
    exact h (by rw [hnil])
  unfold parentPathOf splitLastBS splitLastBSAux
  cases hs : splitLastCh '\\' l with
  | none =>
    cases l with
    | nil => exact absurd rfl hd
    | cons c cs =>
      show (String.mk []).length < (String.mk (c :: cs)).length
      simp [String.length]
  | some pr =>
    have hlen := @splitLastCh_length '\\' l pr.1 pr.2 (by rw [hs])
    show (String.mk pr.1).length < (String.mk l).length
    simp only [String.length]
    simp only [String.data] at hlen ⊢
    omega

/-- `ensureNode` (lines 806–824), fuelled so the recursion is structural:
return the existing node, or create the whole missing chain, pushing each
new node into its parent's children.  The `p = ""` guard is unreachable in
`buildTree` — the map always holds `""` from `initState`; the fuel-out
case is likewise unreachable, since each recursive call strictly shortens
the path (see `ensureNodeAux_congr`). -/
def ensureNodeAux : Nat → BuildState → String → BuildState
  | 0, st, _ => st
  | fuel + 1, st, p =>
    if p ∈ st.nodePaths then st
    else if p = "" then st
    else
      let st' := ensureNodeAux fuel st (parentPathOf p)
      { nodePaths := st'.nodePaths ++ [p],
        edges := st'.edges ++ [(parentPathOf p, p, leafNameOf p)] }

/-- `ensureNode` with enough fuel for the whole ancestor chain. -/
def ensureNode (st : BuildState) (p : String) : BuildState :=
  ensureNodeAux (p.length + 1) st p

/-- The fuel is irrelevant as soon as it dominates the path length, so
`ensureNodeAux` really is the unbounded recursion of the source. -/
theorem ensureNodeAux_congr :
    ∀ (f1 f2 : Nat) (st : BuildState) (p : String),
      p.length < f1 → p.length < f2 →
      ensureNodeAux f1 st p = ensureNodeAux f2 st p := by
  intro f1
  induction f1 with
  | zero => intro f2 st p h1; omega
  | succ n ih =>
    intro f2 st p h1 h2
    cases f2 with
    | zero => omega
    | succ m =>
      simp only [ensureNodeAux]
      by_cases hmem : p ∈ st.nodePaths
      · simp [hmem]
      · by_cases hnil : p = ""
        · simp [hmem, hnil]
        · have hlt := parentPathOf_length_lt p hnil
          have := ih m st (parentPathOf p) (by omega) (by omega)
          simp [hmem, hnil, this]

/-- Unfolding equation of `ensureNode` matching the source recursion. -/
theorem ensureNode_eq (st : BuildState) (p : String) :
    ensureNode st p =
      if p ∈ st.nodePaths then st
      else if p = "" then st
      else
        { nodePaths := (ensureNode st (parentPathOf p)).nodePaths ++ [p],
          edges := (ensureNode st (parentPathOf p)).edges ++
            [(parentPathOf p, p, leafNameOf p)] } := by
  show ensureNodeAux (p.length + 1) st p = _
  simp only [ensureNodeAux]
  by_cases hmem : p ∈ st.nodePaths
  · simp [hmem]
  · by_cases hnil : p = ""
    · simp [hmem, hnil]
    · have hlt := parentPathOf_length_lt p hnil
      have hcg := ensureNodeAux_congr p.length ((parentPathOf p).length + 1) st
        (parentPathOf p) (by omega) (by omega)
      simp [hmem, hnil]
      rw [hcg]
      exact ⟨rfl, rfl⟩

/-- Fold `ensureNode` over a list of filter paths. -/
def ensureAll (st : BuildState) (ps : List String) : BuildState :=
  ps.foldl ensureNode st

/-- Fuelled root-to-path chain of separator-bounded ancestors, leaf
first, excluding the root `""`. -/
def ancestorChainAux : Nat → String → List String
  | 0, _ => []
  | fuel + 1, p =>
    if p = "" then []
    else p :: ancestorChainAux fuel (parentPathOf p)

/-- The chain of a path and all its separator-bounded ancestors. -/
def ancestorChain (p : String) : List String := ancestorChainAux (p.length + 1) p

theorem ancestorChainAux_congr :
    ∀ (f1 f2 : Nat) (p : String),
      p.length < f1 → p.length < f2 →
      ancestorChainAux f1 p = ancestorChainAux f2 p := by
  intro f1
  induction f1 with
  | zero => intro f2 p h1; omega
  | succ n ih =>
    intro f2 p h1 h2
    cases f2 with
    | zero => omega
    | succ m =>
      simp only [ancestorChainAux]
      by_cases hnil : p = ""
      · simp [hnil]
      · have hlt := parentPathOf_length_lt p hnil
        have := ih m (parentPathOf p) (by omega) (by omega)
        simp [hnil, this]

/-- Unfolding equation of `ancestorChain`. -/
theorem ancestorChain_eq (p : String) :
    ancestorChain p =
      if p = "" then [] else p :: ancestorChain (parentPathOf p) := by
  show ancestorChainAux (p.length + 1) p = _
  simp only [ancestorChainAux]
  by_cases hnil : p = ""
  · simp [hnil]
  · have hlt := parentPathOf_length_lt p hnil
    have := ancestorChainAux_congr p.length ((parentPathOf p).length + 1)
      (parentPathOf p) (by omega) (by omega)
    simp [hnil, this]
    rfl

/-- Result of the file-placement loop (lines 845–868): the node store
after the `ensureNode(filter)` calls, the "known filtered" set
(`filteredFiles`, insertion order), and the `(filter, include)` pairs for
which a `FileNode` was pushed. -/
structure FilesPassResult where
  st : BuildState
  filteredFiles : List String
  fileNodes : List (String × String)
deriving DecidableEq

/-- `Set.add`. -/
def addIfAbsent (l : List String) (s : String) : List String :=
  if l.contains s then l else l ++ [s]

/-- One iteration of the file loop: `ensureNode(filter)`, then stat the
resolved location.  An existing file gets a `FileNode`; an existing
non-file gets none; a throwing stat hits `continue`, which skips BOTH the
`FileNode` push and the `filteredFiles.add` that follows the try/catch. -/
def filesPassStep (stat : String → FsStat) (r : FilesPassResult)
    (it : String × String) : FilesPassResult :=
  let st := ensureNode r.st it.2
  match stat (bsToSlash it.1) with
  | .file =>
    { st := st, filteredFiles := addIfAbsent r.filteredFiles (bsToSlash it.1),
      fileNodes := r.fileNodes ++ [(it.2, it.1)] }
  | .dir =>
    { st := st, filteredFiles := addIfAbsent r.filteredFiles (bsToSlash it.1),
      fileNodes := r.fileNodes }
  | .missing =>
    { st := st, filteredFiles := r.filteredFiles, fileNodes := r.fileNodes }

/-- The whole file loop, from a given node store. -/
def buildFilesPass (stat : String → FsStat) (doc : Doc) (st0 : BuildState) :
    FilesPassResult :=
  (collectItems doc).foldl (filesPassStep stat)
    { st := st0, filteredFiles := [], fileNodes := [] }

/-- The node-synthesis part of `buildTree`: definitions pass then file
loop, in source order. -/
def buildTreeModel (stat : String → FsStat) (doc : Doc) : FilesPassResult :=
  buildFilesPass stat doc (ensureAll initState (collectFilterDefs doc))

/-- Every filter path the sidecar mentions: explicit definitions plus
files' filter references. -/
def mentionedFilterPaths (doc : Doc) : List String :=
  collectFilterDefs doc ++ (collectItems doc).map (fun it => it.2)

/-! ## `sortChildren` (lines 729–743)

Folders before files; within each kind the comparator is
`aLabel.localeCompare(bLabel)` — the host's default-locale collation, NOT
plain code-point comparison. -/

/-- A tree child as `sortChildren` sees it: a `FolderNode` or a
`FileNode`, with its display label. -/
inductive TreeItem where
  | folder (name : String)
  | file (name : String)
deriving DecidableEq

/-- `a instanceof FolderNode`. -/
def TreeItem.isFolder : TreeItem → Bool
  | .folder _ => true
  | .file _ => false

/-- The label read by the comparator. -/
def TreeItem.label : TreeItem → String
  | .folder n => n
  | .file n => n

/-- Lexicographic comparison of two `Nat` sequences. -/
def natListCmp : List Nat → List Nat → Ordering
  | [], [] => .eq
  | [], _ :: _ => .lt
  | _ :: _, [] => .gt
  | a :: as, b :: bs =>
    match compare a b with
    | .eq => natListCmp as bs
    | o => o

/-- The primary collation key: case-folded code points. -/
def collPrimary (s : String) : List Nat := s.data.map (fun c => c.toLower.toNat)

/-- The case (tertiary) key: `1` for an uppercase character, else `0`, so
lowercase sorts first on a primary tie. -/
def collCase (s : String) : List Nat :=
  s.data.map (fun c => if c.isUpper then 1 else 0)

/-- Modelled from the runtime: `String.prototype.localeCompare` with no
locale argument, restricted to ASCII as the host's root (ICU) collation
orders it — a case-insensitive primary pass, then lowercase-before-
uppercase on ties.  This is host behaviour, not code of this repository;
it differs from plain code-point order (`'a'.localeCompare('B') < 0`). -/
def localeCmp (a b : String) : Ordering :=
  match natListCmp (collPrimary a) (collPrimary b) with
  | .eq => natListCmp (collCase a) (collCase b)
  | o => o

/-- The comparator function passed to `children.sort` (lines 730–742). -/
def childCompare (a b : TreeItem) : Int :=
  if a.isFolder && !b.isFolder then -1
  else if !a.isFolder && b.isFolder then 1
  else
    match localeCmp a.label b.label with
    | .lt => -1
    | .eq => 0
    | .gt => 1

/-- The non-strict order induced by the comparator. -/
def childLE (a b : TreeItem) : Prop := childCompare a b ≤ 0

instance : DecidableRel childLE := fun a b =>
  inferInstanceAs (Decidable (childCompare a b ≤ 0))

/-- `Array.prototype.sort` with the `childCompare` comparator: a stable
comparison sort, modelled by stable insertion sort. -/
def sortChildren (children : List TreeItem) : List TreeItem :=
  List.insertionSort childLE children

/-! ## `shouldExcludeFile` (lines 1448–1473) and the watcher (488–499)

The exclusion check strips `**` glob stars from each configured pattern
with `pattern.replace(/\/?\*\*\/?/g, '')` and then tests SUBSTRING
containment (or prefix) of the reduced pattern in the relative path. -/

/-- The default `vsFilters.excludePatterns` (lines 1451–1461). -/
def defaultExcludePatterns : List String :=
  ["node_modules/**", "bin/**", "obj/**", "build/**", "out/**", "tmp/**",
   ".vs/**", ".git/**", "dist/**"]

/-- The global regex replace `/\/?\*\*\/?/ → ''`: at each position, greedily
consume an optional `'/'`, a `"**"`, and an optional `'/'`. -/
def stripStarsAux : List Char → List Char
  | '/' :: '*' :: '*' :: '/' :: rest => stripStarsAux rest
  | '/' :: '*' :: '*' :: rest => stripStarsAux rest
  | '*' :: '*' :: '/' :: rest => stripStarsAux rest
  | '*' :: '*' :: rest => stripStarsAux rest
  | c :: rest => c :: stripStarsAux rest
  | [] => []

/-- `pattern.replace(/\/?\*\*\/?/g, '')`. -/
def stripGlobStars (s : String) : String := String.mk (stripStarsAux s.data)

/-- `shouldExcludeFile(relativePath)` with the default patterns. -/
def shouldExcludeFile (relativePath : String) : Bool :=
  (defaultExcludePatterns.map stripGlobStars).any (fun pattern =>
    jsIncludes relativePath pattern ||
    jsStartsWith relativePath pattern ||
    jsStartsWith relativePath (pattern ++ "/"))

/-- The `sourceFilesWatcher` create/delete handler (lines 489–498):
`debouncedRefresh` is invoked exactly when the path is not excluded. -/
def fsEventSchedulesRefresh (relativePath : String) : Bool :=
  !shouldExcludeFile relativePath

/-- Modelled from the spec: each default exclusion pattern has the shape
`d/**`, the glob matching exactly the paths under directory `d`; a path
"lies under an excluded directory" when some default pattern's directory
prefixes it at a `/` boundary. -/
def underExcludedDir (relativePath : String) : Bool :=
  defaultExcludePatterns.any (fun pat =>
    jsStartsWith relativePath (String.mk (pat.data.take (pat.data.length - 3)) ++ "/"))

/-! ## Debounce and drag state (lines 475–521, 607–652)

The provider's mutable scheduling state, with explicit time (ms).  Host
`setTimeout` callbacks are modelled as pending deadlines fired by
`elapseTo`. -/

/-- The provider's scheduling state: the `isDragging` flag, the pending
`handleDrag` 1000 ms timeouts (never cancelled, so a list), the single
cancellable `refreshTimer` deadline, and how many `refresh()` runs have
happened. -/
structure ProviderState where
  isDragging : Bool
  dragClears : List Nat
  refreshAt : Option Nat
  refreshCount : Nat
deriving DecidableEq

/-- `handleDrag` (lines 607–621): set the flag and schedule a 1000 ms
timeout that clears it — the flag self-expires even if no drop occurs. -/
def handleDrag (now : Nat) (s : ProviderState) : ProviderState :=
  { s with isDragging := true, dragClears := s.dragClears ++ [now + 1000] }

/-- `debouncedRefresh` (lines 508–521): while dragging, return at once —
the request is discarded, not deferred; otherwise cancel any pending
timer and arm a 300 ms one. -/
def debouncedRefresh (now : Nat) (s : ProviderState) : ProviderState :=
  if s.isDragging then s
  else { s with refreshAt := some (now + 300) }

/-- `handleDrop` (lines 623–652): clear the flag and refresh immediately,
bypassing the debounce. -/
def handleDrop (s : ProviderState) : ProviderState :=
  { s with isDragging := false, refreshCount := s.refreshCount + 1 }

/-- Advance the host clock to `t`, firing every due callback: a due drag
timeout runs `this.isDragging = false`; a due refresh timer runs
`refresh()`. -/
def elapseTo (t : Nat) (s : ProviderState) : ProviderState :=
  let dragged := s.isDragging && !s.dragClears.any (fun d => d ≤ t)
  let s1 : ProviderState :=
    { s with isDragging := dragged,
             dragClears := s.dragClears.filter (fun d => !(d ≤ t)) }
  match s1.refreshAt with
  | some d =>
    if d ≤ t then
      { s1 with refreshAt := none, refreshCount := s1.refreshCount + 1 }
    else s1
  | none => s1

/-! ## Sample documents used by the claim theorems -/

/-- A definition entry for filter `"A"`. -/
def sampleDefA : Entry := { includeAttr := some "A", uid := some "u1" }

/-- A definition entry for the SIBLING filter `"AB"` (not nested under
`"A"`). -/
def sampleDefAB : Entry := { includeAttr := some "AB", uid := some "u2" }

/-- A file associated with the sibling filter `"AB"`. -/
def sampleItemAB : Entry :=
  { includeAttr := some "x.cpp", filterRef := some (.scalar "AB") }

/-- Sidecar defining filters `"A"` and `"AB"` with one file under
`"AB"`. -/
def docSiblings : Doc :=
  { project := some { itemGroup := some (.scalar
      [("Filter", .array [sampleDefA, sampleDefAB]),
       ("ClCompile", .scalar sampleItemAB)]) } }

/-- Sidecar with a single association `z.cpp → Src`. -/
def docStale : Doc :=
  { project := some { itemGroup := some (.scalar
      [("ClCompile", .scalar
        { includeAttr := some "z.cpp", filterRef := some (.scalar "Src") })]) } }

/-- `stat` of a disk on which nothing exists. -/
def statAllMissing : String → FsStat := fun _ => .missing

/-! ## C1 -/

/-- C1: the "nested under" test of the mutation operations is claimed to
treat `q` as nested under `p` only when `q` starts with `p` followed by
`'\\'`.  The code uses a bare `startsWith`: `deleteFilter` on `"A"` also
removes the definition of sibling `"AB"` and the association referencing
it (the whole sidecar content here, leaving `ItemGroup` deleted), and the
`moveFilterToParent` cycle check wrongly rejects moving `"A"` under the
sibling `"AB"` as if `"AB"` were a descendant of `"A"`. -/
theorem C1_boundary_test_is_plain_startsWith :
    removeFilterFromXML docSiblings "A" = { project := some { itemGroup := none } } ∧
    moveFilterToParent docSiblings "A" "AB" = (docSiblings, false) := by
  constructor
  · rfl
  · rfl

/-! ## C2 -/

/-- C2: for an association whose file is missing on disk, the claim says
no `FileNode` is added (true) but the path is still recorded in the
"known filtered" set.  The `catch { continue; }` of lines 860–864 skips
the `filteredFiles.add` of line 867 as well, so `"z.cpp"` is NOT
recorded: the set stays empty. -/
theorem C2_missing_file_not_recorded :
    (buildTreeModel statAllMissing docStale).fileNodes = [] ∧
    (buildTreeModel statAllMissing docStale).filteredFiles = [] ∧
    ((buildTreeModel statAllMissing docStale).filteredFiles.contains "z.cpp") = false := by
  refine ⟨rfl, rfl, rfl⟩

/-! ## C5 -/

theorem isPrefixOf_self_append (a b : List Char) : a.isPrefixOf (a ++ b) = true := by
  induction a with
  | nil => simp
  | cons c cs ih =>
    show ((c == c) && cs.isPrefixOf (cs ++ b)) = true
    rw [ih]
    simp

theorem jsStartsWith_of_eq_or_nested (src tgt : String)
    (h : tgt = src ∨ ∃ rest, tgt = src ++ "\\" ++ rest) :
    jsStartsWith tgt src = true := by
  unfold jsStartsWith
  rcases h with h | ⟨rest, h⟩
  · rw [h]
    have hx := isPrefixOf_self_append src.data []
    rw [List.append_nil] at hx
    exact hx
  · rw [h]
    simp only [String.data_append, List.append_assoc]
    exact isPrefixOf_self_append _ _

/-- C5: `moveFilterToParent` rejects a move whose destination equals the
source or is nested under it — the check is a prefix test against the
current source path, before any rewrite — and a rejected move returns the
sidecar unchanged, with no write performed. -/
theorem C5_cycle_rejected_sidecar_untouched (doc : Doc) (src tgt : String)
    (h : tgt = src ∨ ∃ rest, tgt = src ++ "\\" ++ rest) :
    moveFilterToParent doc src tgt = (doc, false) := by
  unfold moveFilterToParent
  rw [jsStartsWith_of_eq_or_nested src tgt h]
  rfl

/-- C5 witness: moving `"A\B"` under `"A\B\C"` is rejected and leaves the
sample sidecar untouched. -/
theorem C5_witness :
    moveFilterToParent docSiblings "A\\B" "A\\B\\C" = (docSiblings, false) :=
  C5_cycle_rejected_sidecar_untouched docSiblings "A\\B" "A\\B\\C"
    (Or.inr ⟨"C", by decide⟩)

/-! ## C9 -/

/-- C9: the exclusion check strips glob stars (`"bin/**"` becomes
`"bin"`) and then tests substring containment, so `"cabinet/x.cpp"` —
which lies under none of the default excluded directories — is reported
excluded, and its create/delete events never schedule a rebuild. -/
theorem C9_substring_exclusion :
    stripGlobStars "bin/**" = "bin" ∧
    shouldExcludeFile "cabinet/x.cpp" = true ∧
    underExcludedDir "cabinet/x.cpp" = false ∧
    fsEventSchedulesRefresh "cabinet/x.cpp" = false := by
  refine ⟨rfl, by decide, by decide, by decide⟩

/-! ## C10 -/

/-- C10: the drag flag self-expires — `handleDrag` schedules a 1000 ms
timeout clearing `isDragging` even when no drop ever occurs — and a
`debouncedRefresh` arriving while the flag is set returns the state
unchanged: the request is discarded outright (no timer armed, no rebuild
ever produced by that event), not deferred. -/
theorem C10_drag_flag_expires_and_refresh_discarded (s : ProviderState)
    (t tlater now : Nat) (h1 : t + 1000 ≤ tlater) (h2 : s.isDragging = true) :
    (elapseTo tlater (handleDrag t s)).isDragging = false ∧
    debouncedRefresh now s = s := by
  constructor
  · have hany : ((handleDrag t s).dragClears.any (fun d => d ≤ tlater)) = true := by
      simp [handleDrag]
      exact Or.inr h1
    unfold elapseTo
    cases hra : (handleDrag t s).refreshAt with
    | none => simp [hany]
    | some d => by_cases hd : d ≤ tlater <;> simp [hany, hd]
  · unfold debouncedRefresh
    simp [h2]

/-- The provider state used by the C10 witness: a drag in flight. -/
def dragState : ProviderState :=
  { isDragging := true, dragClears := [], refreshAt := none, refreshCount := 0 }

/-- C10 witness: at concrete times, the flag started at 0 is off at 1000,
and a refresh request at time 5 is discarded. -/
theorem C10_witness :
    (elapseTo 1000 (handleDrag 0 dragState)).isDragging = false ∧
    debouncedRefresh 5 dragState = dragState :=
  C10_drag_flag_expires_and_refresh_discarded dragState 0 1000 5
    (by decide) (by decide)

/-! ## C4: order lemmas for the sort comparator -/

theorem natListCmp_eq_iff : ∀ {a b : List Nat}, natListCmp a b = .eq ↔ a = b := by
  intro a
  induction a with
  | nil => intro b; cases b <;> simp [natListCmp]
  | cons x xs ih =>
    intro b
    cases b with
    | nil => simp [natListCmp]
    | cons y ys =>
      simp only [natListCmp]
      cases hxy : compare x y with
      | lt =>
        constructor
        · intro h; cases h
        · intro h
          injection h with h1 h2
          subst h1
          rw [Nat.compare_eq_lt] at hxy
          omega
      | eq =>
        rw [Nat.compare_eq_eq] at hxy
        constructor
        · intro h; rw [hxy, ih.mp h]
        · intro h
          injection h with h1 h2
          exact ih.mpr h2
      | gt =>
        constructor
        · intro h; cases h
        · intro h
          injection h with h1 h2
          subst h1
          rw [Nat.compare_eq_gt] at hxy
          omega

theorem natListCmp_swap : ∀ (a b : List Nat), natListCmp b a = (natListCmp a b).swap := by
  intro a
  induction a with
  | nil => intro b; cases b <;> rfl
  | cons x xs ih =>
    intro b
    cases b with
    | nil => rfl
    | cons y ys =>
      simp only [natListCmp]
      cases hxy : compare x y with
      | lt =>
        have hyx : compare y x = .gt := by
          rw [Nat.compare_eq_gt]
          rw [Nat.compare_eq_lt] at hxy
          exact hxy
        rw [hyx]
        rfl
      | eq =>
        have hyx : compare y x = .eq := by
          rw [Nat.compare_eq_eq] at hxy ⊢
          omega
        rw [hyx]
        exact ih ys
      | gt =>
        have hyx : compare y x = .lt := by
          rw [Nat.compare_eq_lt]
          rw [Nat.compare_eq_gt] at hxy
          exact hxy
        rw [hyx]
        rfl

theorem natListCmp_lt_trans :
    ∀ {a b c : List Nat}, natListCmp a b = .lt → natListCmp b c = .lt →
      natListCmp a c = .lt := by
  intro a
  induction a with
  | nil =>
    intro b c hab hbc
    cases b with
    | nil => exact hbc
    | cons y ys =>
      cases c with
      | nil => cases hbc
      | cons z zs => rfl
  | cons x xs ih =>
    intro b c hab hbc
    cases b with
    | nil => cases hab
    | cons y ys =>
      cases c with
      | nil => cases hbc
      | cons z zs =>
        simp only [natListCmp] at hab hbc ⊢
        cases hxy : compare x y with
        | lt =>
          cases hyz : compare y z with
          | lt =>
            have : compare x z = .lt := by
              rw [Nat.compare_eq_lt] at hxy hyz ⊢
              omega
            rw [this]
          | eq =>
            have : compare x z = .lt := by
              rw [Nat.compare_eq_lt] at hxy ⊢
              rw [Nat.compare_eq_eq] at hyz
              omega
            rw [this]
          | gt => rw [hyz] at hbc; cases hbc
        | eq =>
          cases hyz : compare y z with
          | lt =>
            have : compare x z = .lt := by
              rw [Nat.compare_eq_eq] at hxy
              rw [Nat.compare_eq_lt] at hyz ⊢
              omega
            rw [this]
          | eq =>
            have : compare x z = .eq := by
              rw [Nat.compare_eq_eq] at hxy hyz ⊢
              omega
            rw [this]
            rw [hxy] at hab
            rw [hyz] at hbc
            exact ih hab hbc
          | gt => rw [hyz] at hbc; cases hbc
        | gt => rw [hxy] at hab; cases hab

theorem natListCmp_le_trans {a b c : List Nat}
    (hab : natListCmp a b ≠ .gt) (hbc : natListCmp b c ≠ .gt) :
    natListCmp a c ≠ .gt := by
  cases h1 : natListCmp a b with
  | gt => exact absurd h1 hab
  | eq =>
    rw [natListCmp_eq_iff] at h1
    rw [h1]
    exact hbc
  | lt =>
    cases h2 : natListCmp b c with
    | gt => exact absurd h2 hbc
    | eq =>
      rw [natListCmp_eq_iff] at h2
      rw [← h2]
      rw [h1]
      simp
    | lt =>
      rw [natListCmp_lt_trans h1 h2]
      simp

theorem localeCmp_swap (a b : String) : localeCmp b a = (localeCmp a b).swap := by
  unfold localeCmp
  rw [natListCmp_swap (collPrimary a) (collPrimary b)]
  cases natListCmp (collPrimary a) (collPrimary b) with
  | lt => rfl
  | gt => rfl
  | eq =>
    rw [natListCmp_swap (collCase a) (collCase b)]
    cases natListCmp (collCase a) (collCase b) <;> rfl

theorem localeCmp_le_trans {a b c : String}
    (hab : localeCmp a b ≠ .gt) (hbc : localeCmp b c ≠ .gt) :
    localeCmp a c ≠ .gt := by
  unfold localeCmp at hab hbc ⊢
  cases h1 : natListCmp (collPrimary a) (collPrimary b) with
  | gt => rw [h1] at hab; exact absurd rfl hab
  | lt =>
    rw [h1] at hab
    cases h2 : natListCmp (collPrimary b) (collPrimary c) with
    | gt => rw [h2] at hbc; exact absurd rfl hbc
    | lt =>
      rw [natListCmp_lt_trans h1 h2]
      simp
    | eq =>
      rw [natListCmp_eq_iff] at h2
      rw [← h2, h1]
      simp
  | eq =>
    rw [h1] at hab
    simp only [] at hab
    rw [natListCmp_eq_iff] at h1
    rw [h1]
    cases h2 : natListCmp (collPrimary b) (collPrimary c) with
    | gt => rw [h2] at hbc; exact absurd rfl hbc
    | lt => simp
    | eq =>
      rw [h2] at hbc
      simp only [] at hbc ⊢
      exact natListCmp_le_trans hab hbc

theorem childLE_iff (a b : TreeItem) :
    childLE a b ↔
      (a.isFolder = true ∧ b.isFolder = false) ∨
      (a.isFolder = b.isFolder ∧ localeCmp a.label b.label ≠ .gt) := by
  unfold childLE childCompare
  cases ha : a.isFolder <;> cases hb : b.isFolder <;>
    cases hl : localeCmp a.label b.label <;>
    simp [ha, hb, hl]

instance : IsTrans TreeItem childLE := by
  constructor
  intro a b c hab hbc
  rw [childLE_iff] at hab hbc ⊢
  rcases hab with ⟨ha, hb⟩ | ⟨hk1, hl1⟩
  · rcases hbc with ⟨hb2, hc⟩ | ⟨hk2, hl2⟩
    · rw [hb] at hb2; cases hb2
    · exact Or.inl ⟨ha, hk2 ▸ hb⟩
  · rcases hbc with ⟨hb2, hc⟩ | ⟨hk2, hl2⟩
    · exact Or.inl ⟨hk1.trans hb2, hc⟩
    · exact Or.inr ⟨hk1.trans hk2, localeCmp_le_trans hl1 hl2⟩

instance : IsTotal TreeItem childLE := by
  constructor
  intro a b
  rw [childLE_iff, childLE_iff]
  cases ha : a.isFolder <;> cases hb : b.isFolder
  · by_cases hg : localeCmp a.label b.label = .gt
    · refine Or.inr (Or.inr ⟨rfl, ?_⟩)
      rw [localeCmp_swap, hg]
      simp [Ordering.swap]
    · exact Or.inl (Or.inr ⟨rfl, hg⟩)
  · exact Or.inr (Or.inl ⟨rfl, rfl⟩)
  · exact Or.inl (Or.inl ⟨rfl, rfl⟩)
  · by_cases hg : localeCmp a.label b.label = .gt
    · refine Or.inr (Or.inr ⟨rfl, ?_⟩)
      rw [localeCmp_swap, hg]
      simp [Ordering.swap]
    · exact Or.inl (Or.inr ⟨rfl, hg⟩)

/-- C4 (amended): the children comparator puts every folder before every
file, and inside each kind orders labels ascending by the default-locale
`localeCompare` collation — NOT by plain code-point order — and the sort
is a permutation of the input. -/
theorem C4_folders_first_localeCompare_order (children : List TreeItem) :
    (sortChildren children).Pairwise (fun x y =>
      (x.isFolder = true ∧ y.isFolder = false) ∨
      (x.isFolder = y.isFolder ∧ localeCmp x.label y.label ≠ .gt)) ∧
    (sortChildren children).Perm children := by
  constructor
  · have hs := List.sorted_insertionSort childLE children
    exact hs.imp (fun h => (childLE_iff _ _).1 h)
  · exact List.perm_insertionSort childLE children

/-- Plain lexicographic code-point order on strings — the order the claim
asserts for siblings ("plain lexicographic ... no locale-specific
collation"). -/
def plainLexLE (a b : String) : Prop :=
  natListCmp (a.data.map Char.toNat) (b.data.map Char.toNat) ≠ .gt

instance : DecidableRel plainLexLE := fun a b =>
  inferInstanceAs (Decidable (_ ≠ _))

/-- C4 counterexample: with sibling folders labelled `"B"` and `"a"`,
`sortChildren` (which calls `localeCompare`) yields `a` before `B`,
whereas plain lexicographic code-point order on display names would put
`"B"` first — the output is not plainly-lexicographically sorted. -/
theorem C4_counterexample_locale_vs_plain :
    sortChildren [TreeItem.folder "B", TreeItem.folder "a"] =
      [TreeItem.folder "a", TreeItem.folder "B"] ∧
    ¬ List.Pairwise (fun x y : TreeItem => plainLexLE x.label y.label)
        (sortChildren [TreeItem.folder "B", TreeItem.folder "a"]) := by
  constructor
  · decide
  · decide

/-! ## C6: idempotence of the stale-reference cleanup -/

theorem filter_idem {α : Type} (p : α → Bool) (l : List α) :
    (l.filter p).filter p = l.filter p := by
  rw [List.filter_filter]
  simp

theorem collapseTag_toList {kept : List Entry} {sa : SA Entry}
    (h : collapseTag kept = some sa) : sa.toList = kept := by
  match kept with
  | [] => simp [collapseTag] at h
  | [x] =>
    simp [collapseTag] at h
    rw [← h]
    rfl
  | x :: y :: rest =>
    simp [collapseTag] at h
    rw [← h]
    rfl

theorem cleanupGroup_idem (stat : String → FsStat) :
    ∀ g : Group, cleanupGroup stat (cleanupGroup stat g).1 = ((cleanupGroup stat g).1, false) := by
  intro g
  induction g with
  | nil => rfl
  | cons p rest ih =>
    by_cases hf : p.1 = "Filter"
    · have key : cleanupGroup stat (p :: rest) =
          (p :: (cleanupGroup stat rest).1, (cleanupGroup stat rest).2) := by
        simp only [cleanupGroup]
        rw [if_pos hf]
      rw [key]
      have key2 : cleanupGroup stat (p :: (cleanupGroup stat rest).1) =
          (p :: (cleanupGroup stat (cleanupGroup stat rest).1).1,
           (cleanupGroup stat (cleanupGroup stat rest).1).2) := by
        simp only [cleanupGroup]
        rw [if_pos hf]
      rw [key2, ih]
    · have key : cleanupGroup stat (p :: rest) =
          (match collapseTag (p.2.toList.filter (keepExisting stat)) with
           | none => ((cleanupGroup stat rest).1,
               (cleanupGroup stat rest).2 ||
                 !decide ((p.2.toList.filter (keepExisting stat)).length = p.2.toList.length))
           | some sa => ((p.1, sa) :: (cleanupGroup stat rest).1,
               (cleanupGroup stat rest).2 ||
                 !decide ((p.2.toList.filter (keepExisting stat)).length = p.2.toList.length))) := by
        simp only [cleanupGroup]
        rw [if_neg hf]
      rw [key]
      cases hc : collapseTag (p.2.toList.filter (keepExisting stat)) with
      | none => exact ih
      | some sa =>
        have hsa : sa.toList = p.2.toList.filter (keepExisting stat) :=
          collapseTag_toList hc
        show cleanupGroup stat ((p.1, sa) :: (cleanupGroup stat rest).1) = _
        have key2 : cleanupGroup stat ((p.1, sa) :: (cleanupGroup stat rest).1) =
            (match collapseTag (sa.toList.filter (keepExisting stat)) with
             | none => ((cleanupGroup stat (cleanupGroup stat rest).1).1,
                 (cleanupGroup stat (cleanupGroup stat rest).1).2 ||
                   !decide ((sa.toList.filter (keepExisting stat)).length = sa.toList.length))
             | some sa2 => ((p.1, sa2) :: (cleanupGroup stat (cleanupGroup stat rest).1).1,
                 (cleanupGroup stat (cleanupGroup stat rest).1).2 ||
                   !decide ((sa.toList.filter (keepExisting stat)).length = sa.toList.length))) := by
          simp only [cleanupGroup]
          rw [if_neg hf]
        rw [key2, ih]
        simp only [hsa, filter_idem, hc, decide_eq_true_eq]
        simp

theorem cleanupEmptyGroups_mem {gs : List Group} {ig1 : SA Group} {g : Group}
    (hce : cleanupEmptyGroups gs = some ig1) (hg : g ∈ ig1.toList) : g ∈ gs := by
  unfold cleanupEmptyGroups at hce
  revert hce
  cases hfl : gs.filter (fun g => !g.isEmpty) with
  | nil => intro hce; cases hce
  | cons a l =>
    cases l with
    | nil =>
      intro hce
      injection hce with hce
      rw [← hce] at hg
      simp only [SA.toList, List.mem_singleton] at hg
      subst hg
      have hmf : g ∈ gs.filter (fun g => !g.isEmpty) := by
        rw [hfl]
        exact List.mem_singleton.mpr rfl
      exact (List.mem_filter.mp hmf).1
    | cons b l2 =>
      intro hce
      injection hce with hce
      rw [← hce] at hg
      simp only [SA.toList] at hg
      have hmf : g ∈ gs.filter (fun g => !g.isEmpty) := by
        rw [hfl]
        exact hg
      exact (List.mem_filter.mp hmf).1

/-- C6: the stale-reference cleanup is idempotent — applied to its own
output (with the disk unchanged), it detects no change, performs no
write, and returns the first pass's output verbatim. -/
theorem C6_cleanup_idempotent (stat : String → FsStat) (doc : Doc) :
    cleanupStaleFileReferences stat (cleanupStaleFileReferences stat doc).1 =
      ((cleanupStaleFileReferences stat doc).1, false) := by
  obtain ⟨proj?⟩ := doc
  cases proj? with
  | none => rfl
  | some proj =>
    obtain ⟨ig?⟩ := proj
    cases ig? with
    | none => rfl
    | some ig =>
      by_cases hch :
          ((ig.toList.map (cleanupGroup stat)).any (fun pr => pr.2)) = true
      · have h1 : cleanupStaleFileReferences stat ⟨some ⟨some ig⟩⟩ =
            ({ project := some { itemGroup :=
                cleanupEmptyGroups ((ig.toList.map (cleanupGroup stat)).map (fun pr => pr.1)) } },
             true) := by
          unfold cleanupStaleFileReferences
          dsimp only
          rw [if_pos hch]
        rw [h1]
        have hmem : ∀ g ∈ (ig.toList.map (cleanupGroup stat)).map (fun pr => pr.1),
            cleanupGroup stat g = (g, false) := by
          intro g hg
          rw [List.mem_map] at hg
          obtain ⟨pr, hpr, hg⟩ := hg
          rw [List.mem_map] at hpr
          obtain ⟨orig, _, hpr⟩ := hpr
          rw [← hg, ← hpr]
          exact cleanupGroup_idem stat orig
        cases hce : cleanupEmptyGroups
            ((ig.toList.map (cleanupGroup stat)).map (fun pr => pr.1)) with
        | none => rfl
        | some ig1 =>
          have hno : ((ig1.toList.map (cleanupGroup stat)).any (fun pr => pr.2)) = false := by
            rw [List.any_eq_false]
            intro pr hpr
            rw [List.mem_map] at hpr
            obtain ⟨g, hg, hpr⟩ := hpr
            rw [← hpr, hmem g (cleanupEmptyGroups_mem hce hg)]
            simp
          unfold cleanupStaleFileReferences
          dsimp only
          rw [if_neg (by rw [hno]; simp)]
      · have h1 : cleanupStaleFileReferences stat ⟨some ⟨some ig⟩⟩ =
            (⟨some ⟨some ig⟩⟩, false) := by
          unfold cleanupStaleFileReferences
          dsimp only
          rw [if_neg hch]
        rw [h1]
        exact h1

/-! ## C7: ancestor-chain synthesis -/

/-- Invariant of the node store during `buildTree`: the root is present,
the store is closed under separator-bounded ancestors, and every
non-root node was pushed into its parent's children. -/
def GoodState (st : BuildState) : Prop :=
  "" ∈ st.nodePaths ∧
  (∀ q ∈ st.nodePaths, ∀ r ∈ ancestorChain q, r ∈ st.nodePaths) ∧
  (∀ q ∈ st.nodePaths, q ≠ "" → (parentPathOf q, q, leafNameOf q) ∈ st.edges)

theorem length_le_zero_eq_empty {p : String} (h : p.length ≤ 0) : p = "" := by
  obtain ⟨l⟩ := p
  have : l.length = 0 := Nat.le_zero.mp h
  rw [List.length_eq_zero] at this
  rw [this]

theorem initState_good : GoodState initState := by
  refine ⟨by simp [initState], ?_, ?_⟩
  · intro q hq r hr
    simp [initState] at hq
    subst hq
    rw [ancestorChain_eq] at hr
    simp at hr
  · intro q hq hne
    simp [initState] at hq
    exact absurd hq hne

theorem ensureNode_spec :
    ∀ (n : Nat) (p : String), p.length ≤ n → ∀ (st : BuildState), GoodState st →
      GoodState (ensureNode st p) ∧ p ∈ (ensureNode st p).nodePaths ∧
      (∀ x ∈ st.nodePaths, x ∈ (ensureNode st p).nodePaths) ∧
      (∀ e ∈ st.edges, e ∈ (ensureNode st p).edges) := by
  intro n
  induction n with
  | zero =>
    intro p hp st hst
    have hp0 : p = "" := length_le_zero_eq_empty hp
    subst hp0
    rw [ensureNode_eq]
    rw [if_pos hst.1]
    exact ⟨hst, hst.1, fun x hx => hx, fun e he => he⟩
  | succ n ih =>
    intro p hp st hst
    rw [ensureNode_eq]
    by_cases hmem : p ∈ st.nodePaths
    · rw [if_pos hmem]
      exact ⟨hst, hmem, fun x hx => hx, fun e he => he⟩
    · rw [if_neg hmem]
      by_cases hnil : p = ""
      · subst hnil
        exact absurd hst.1 hmem
      · rw [if_neg hnil]
        have hplen : (parentPathOf p).length ≤ n := by
          have := parentPathOf_length_lt p hnil
          omega
        obtain ⟨hG, hpmem, hmono, hmonoE⟩ := ih (parentPathOf p) hplen st hst
        refine ⟨⟨?_, ?_, ?_⟩, ?_, ?_, ?_⟩
        · exact List.mem_append.mpr (Or.inl hG.1)
        · intro q hq r hr
          rcases List.mem_append.mp hq with hq | hq
          · exact List.mem_append.mpr (Or.inl (hG.2.1 q hq r hr))
          · rw [List.mem_singleton] at hq
            subst hq
            rw [ancestorChain_eq, if_neg hnil] at hr
            rcases List.mem_cons.mp hr with hr | hr
            · subst hr
              exact List.mem_append.mpr (Or.inr (List.mem_singleton.mpr rfl))
            · exact List.mem_append.mpr (Or.inl (hG.2.1 _ hpmem r hr))
        · intro q hq hqne
          rcases List.mem_append.mp hq with hq | hq
          · exact List.mem_append.mpr (Or.inl (hG.2.2 q hq hqne))
          · rw [List.mem_singleton] at hq
            subst hq
            exact List.mem_append.mpr (Or.inr (List.mem_singleton.mpr rfl))
        · exact List.mem_append.mpr (Or.inr (List.mem_singleton.mpr rfl))
        · intro x hx
          exact List.mem_append.mpr (Or.inl (hmono x hx))
        · intro e he
          exact List.mem_append.mpr (Or.inl (hmonoE e he))

theorem ensureAll_spec :
    ∀ (ps : List String) (st : BuildState), GoodState st →
      GoodState (ensureAll st ps) ∧
      (∀ p ∈ ps, p ∈ (ensureAll st ps).nodePaths) ∧
      (∀ x ∈ st.nodePaths, x ∈ (ensureAll st ps).nodePaths) := by
  intro ps
  induction ps with
  | nil =>
    intro st hst
    exact ⟨hst, by simp, fun x hx => hx⟩
  | cons p rest ih =>
    intro st hst
    obtain ⟨hG1, hp1, hmono1, _⟩ :=
      ensureNode_spec p.length p (Nat.le_refl _) st hst
    obtain ⟨hG, hmem, hmono⟩ := ih (ensureNode st p) hG1
    refine ⟨hG, ?_, ?_⟩
    · intro q hq
      rcases List.mem_cons.mp hq with hq | hq
      · subst hq
        exact hmono q hp1
      · exact hmem q hq
    · intro x hx
      exact hmono x (hmono1 x hx)

theorem filesPassStep_st (stat : String → FsStat) (r : FilesPassResult)
    (it : String × String) :
    (filesPassStep stat r it).st = ensureNode r.st it.2 := by
  unfold filesPassStep
  cases stat (bsToSlash it.1) <;> rfl

theorem foldl_filesPassStep_st (stat : String → FsStat) :
    ∀ (l : List (String × String)) (r : FilesPassResult),
      (l.foldl (filesPassStep stat) r).st = ensureAll r.st (l.map (fun it => it.2)) := by
  intro l
  induction l with
  | nil => intro r; rfl
  | cons it rest ih =>
    intro r
    show (rest.foldl (filesPassStep stat) (filesPassStep stat r it)).st = _
    rw [ih]
    rw [filesPassStep_st]
    rfl

theorem buildTreeModel_st (stat : String → FsStat) (doc : Doc) :
    (buildTreeModel stat doc).st = ensureAll initState (mentionedFilterPaths doc) := by
  unfold buildTreeModel buildFilesPass mentionedFilterPaths
  rw [foldl_filesPassStep_st]
  unfold ensureAll
  rw [List.foldl_append]

theorem mem_ancestorChain_ne :
    ∀ (n : Nat) (p : String), p.length ≤ n → ∀ q ∈ ancestorChain p, q ≠ "" := by
  intro n
  induction n with
  | zero =>
    intro p hp q hq
    rw [length_le_zero_eq_empty hp] at hq
    rw [ancestorChain_eq] at hq
    simp at hq
  | succ n ih =>
    intro p hp q hq
    rw [ancestorChain_eq] at hq
    by_cases hnil : p = ""
    · rw [if_pos hnil] at hq
      cases hq
    · rw [if_neg hnil] at hq
      rcases List.mem_cons.mp hq with hq | hq
      · subst hq; exact hnil
      · have hplen : (parentPathOf p).length ≤ n := by
          have := parentPathOf_length_lt p hnil
          omega
        exact ih (parentPathOf p) hplen q hq

/-- C7: every filter path the sidecar mentions — an explicit definition or
a file's filter reference — gets its entire root-to-path chain of nodes
synthesized by `buildTree`: each chain member is in the node map and was
pushed into its parent's children, missing ancestors included. -/
theorem C7_ancestor_chain_synthesized (stat : String → FsStat) (doc : Doc)
    (p : String) (hp : p ∈ mentionedFilterPaths doc) :
    ∀ q ∈ ancestorChain p,
      q ∈ (buildTreeModel stat doc).st.nodePaths ∧
      (parentPathOf q, q, leafNameOf q) ∈ (buildTreeModel stat doc).st.edges := by
  rw [buildTreeModel_st]
  obtain ⟨hG, hmem, _⟩ := ensureAll_spec (mentionedFilterPaths doc) initState initState_good
  have hpmem := hmem p hp
  intro q hq
  have hqmem := hG.2.1 p hpmem q hq
  refine ⟨hqmem, ?_⟩
  exact hG.2.2 q hqmem (mem_ancestorChain_ne p.length p (Nat.le_refl _) q hq)

/-- Sidecar defining ONLY the filter `"A\B\C"` — no `"A"` or `"A\B"`
definitions. -/
def docOnlyABC : Doc :=
  { project := some { itemGroup := some (.scalar
      [("Filter", .scalar { includeAttr := some "A\\B\\C", uid := some "u3" })]) } }

/-- C7 witness: from a sidecar defining only `"A\B\C"`, all three nested
nodes `A`, `A\B`, `A\B\C` exist, each a child of its parent. -/
theorem C7_witness :
    ("A" ∈ (buildTreeModel statAllMissing docOnlyABC).st.nodePaths ∧
      (parentPathOf "A", "A", leafNameOf "A") ∈
        (buildTreeModel statAllMissing docOnlyABC).st.edges) ∧
    ("A\\B" ∈ (buildTreeModel statAllMissing docOnlyABC).st.nodePaths ∧
      (parentPathOf "A\\B", "A\\B", leafNameOf "A\\B") ∈
        (buildTreeModel statAllMissing docOnlyABC).st.edges) ∧
    ("A\\B\\C" ∈ (buildTreeModel statAllMissing docOnlyABC).st.nodePaths ∧
      (parentPathOf "A\\B\\C", "A\\B\\C", leafNameOf "A\\B\\C") ∈
        (buildTreeModel statAllMissing docOnlyABC).st.edges) :=
  ⟨C7_ancestor_chain_synthesized statAllMissing docOnlyABC "A\\B\\C" (by decide)
      "A" (by decide),
   C7_ancestor_chain_synthesized statAllMissing docOnlyABC "A\\B\\C" (by decide)
      "A\\B" (by decide),
   C7_ancestor_chain_synthesized statAllMissing docOnlyABC "A\\B\\C" (by decide)
      "A\\B\\C" (by decide)⟩

/-! ## C3: the element type chosen for a new association -/

/-- The `(tag, entry)` pairs outside `Filter` of one group whose
`Include` equals `filePath`, in order. -/
def groupEntriesWithInclude (g : Group) (filePath : String) : List (String × Entry) :=
  g.flatMap (fun p =>
    if p.1 = "Filter" then []
    else (p.2.toList.filter (fun it => it.includeAttr = some filePath)).map
      (fun e => (p.1, e)))

/-- All non-`Filter` `(tag, entry)` pairs of the document whose `Include`
equals `filePath`. -/
def fileEntriesWithInclude (doc : Doc) (filePath : String) : List (String × Entry) :=
  (docGroups doc).flatMap (fun g => groupEntriesWithInclude g filePath)

/-- No non-`Filter` item of `g` has this `Include`. -/
def GroupClean (g : Group) (fp : String) : Prop :=
  ∀ p ∈ g, p.1 ≠ "Filter" → ∀ it ∈ p.2.toList, it.includeAttr ≠ some fp

theorem docContainsInclude_false {doc : Doc} {fp : String}
    (h : docContainsInclude doc fp = false) :
    ∀ g ∈ docGroups doc, GroupClean g fp := by
  unfold docContainsInclude at h
  rw [List.any_eq_false] at h
  intro g hg p hp hpf it hit
  have hgf := h g hg
  rw [Bool.not_eq_true, List.any_eq_false] at hgf
  have hpfalse := hgf p hp
  simp only [Bool.and_eq_true, decide_eq_true_eq, not_and] at hpfalse
  have hnoitem := hpfalse hpf
  rw [Bool.not_eq_true, List.any_eq_false] at hnoitem
  have hthis := hnoitem it hit
  simpa using hthis

theorem groupEntriesWithInclude_eq_nil {g : Group} {fp : String}
    (h : GroupClean g fp) : groupEntriesWithInclude g fp = [] := by
  unfold groupEntriesWithInclude
  induction g with
  | nil => rfl
  | cons p rest ih =>
    rw [List.flatMap_cons]
    have hrest : ∀ q ∈ rest, q.1 ≠ "Filter" → ∀ it ∈ q.2.toList, it.includeAttr ≠ some fp :=
      fun q hq => h q (List.mem_cons.mpr (Or.inr hq))
    rw [ih hrest]
    by_cases hpf : p.1 = "Filter"
    · rw [if_pos hpf]
      rfl
    · rw [if_neg hpf]
      have hfn : p.2.toList.filter (fun it => it.includeAttr = some fp) = [] := by
        rw [List.filter_eq_nil_iff]
        intro it hit
        simp only [decide_eq_true_eq]
        exact h p (List.mem_cons.mpr (Or.inl rfl)) hpf it hit
      rw [hfn]
      rfl

theorem itemTypeFor_ne_filterTag (fp : String) : itemTypeFor fp ≠ "Filter" := by
  unfold itemTypeFor
  dsimp only
  by_cases h1 : toLowerStr (jsExtname fp) ∈ compiledExts <;>
    by_cases h2 : toLowerStr (jsExtname fp) ∈ resourceExts <;>
    by_cases h3 : toLowerStr (jsExtname fp) ∈ textExts <;>
    simp [h1, h2, h3]

theorem pushEntry_toList (sa : SA Entry) (e : Entry) :
    (sa.pushEntry e).toList = sa.toList ++ [e] := by
  cases sa <;> rfl

theorem groupEntries_push {g : Group} {fp nf t : String}
    (htF : t ≠ "Filter") (hclean : GroupClean g fp) (hhas : hasTag g t = true) :
    groupEntriesWithInclude
      (mapFirstWhere (fun p => p.1 = t)
        (fun p => (p.1, p.2.pushEntry (newFileItem fp nf))) g) fp
      = [(t, newFileItem fp nf)] := by
  induction g with
  | nil => simp [hasTag, getTag] at hhas
  | cons q rest ih =>
    by_cases hq : q.1 = t
    · unfold mapFirstWhere
      rw [if_pos (by simp [hq])]
      unfold groupEntriesWithInclude
      rw [List.flatMap_cons]
      have hrest : GroupClean rest fp :=
        fun r hr => hclean r (List.mem_cons.mpr (Or.inr hr))
      have hrestnil := groupEntriesWithInclude_eq_nil hrest
      unfold groupEntriesWithInclude at hrestnil
      rw [hrestnil, List.append_nil]
      rw [if_neg (by simp [hq, htF])]
      rw [pushEntry_toList, List.filter_append]
      have hold : q.2.toList.filter (fun it => it.includeAttr = some fp) = [] := by
        rw [List.filter_eq_nil_iff]
        intro it hit
        simp only [decide_eq_true_eq]
        exact hclean q (List.mem_cons.mpr (Or.inl rfl)) (hq ▸ htF) it hit
      rw [hold]
      simp [newFileItem, hq]
    · unfold mapFirstWhere
      rw [if_neg (by simp [hq])]
      unfold groupEntriesWithInclude
      rw [List.flatMap_cons]
      have hheadnil :
          (if q.1 = "Filter" then []
           else (q.2.toList.filter (fun it => it.includeAttr = some fp)).map
             (fun e => (q.1, e))) = ([] : List (String × Entry)) := by
        by_cases hqf : q.1 = "Filter"
        · rw [if_pos hqf]
        · rw [if_neg hqf]
          have : q.2.toList.filter (fun it => it.includeAttr = some fp) = [] := by
            rw [List.filter_eq_nil_iff]
            intro it hit
            simp only [decide_eq_true_eq]
            exact hclean q (List.mem_cons.mpr (Or.inl rfl)) hqf it hit
          rw [this]
          rfl
      rw [hheadnil, List.nil_append]
      have hhas' : hasTag rest t = true := by
        unfold hasTag getTag at hhas ⊢
        rw [List.find?_cons_of_neg] at hhas
        · exact hhas
        · simp [hq]
      have hrest : GroupClean rest fp :=
        fun r hr => hclean r (List.mem_cons.mpr (Or.inr hr))
      have := ih hrest hhas'
      unfold groupEntriesWithInclude at this
      exact this

theorem matchCollapse_toList (gs : List Group) :
    (match gs with
     | [g] => SA.scalar g
     | l => SA.array l).toList = gs := by
  match gs with
  | [] => rfl
  | [g] => rfl
  | a :: b :: r => rfl

theorem entries_mapFirstWhere {fp nf t : String} (htF : t ≠ "Filter") :
    ∀ {gs : List Group}, (∀ g ∈ gs, GroupClean g fp) →
      gs.any (fun g => hasTag g t) = true →
      (mapFirstWhere (fun g => hasTag g t)
          (fun g => mapFirstWhere (fun p => p.1 = t)
            (fun p => (p.1, p.2.pushEntry (newFileItem fp nf))) g)
          gs).flatMap (fun g => groupEntriesWithInclude g fp) =
        [(t, newFileItem fp nf)] := by
  intro gs
  induction gs with
  | nil =>
    intro _ hhas
    simp at hhas
  | cons a as ih =>
    intro hclean hhas
    by_cases ha : hasTag a t = true
    · unfold mapFirstWhere
      rw [if_pos ha]
      rw [List.flatMap_cons]
      rw [groupEntries_push htF (hclean a (List.mem_cons.mpr (Or.inl rfl))) ha]
      have hrest : as.flatMap (fun g => groupEntriesWithInclude g fp) = [] := by
        rw [List.flatMap_eq_nil_iff]
        intro g hg
        exact groupEntriesWithInclude_eq_nil
          (hclean g (List.mem_cons.mpr (Or.inr hg)))
      rw [hrest]
      rfl
    · unfold mapFirstWhere
      rw [if_neg ha]
      rw [List.flatMap_cons]
      rw [groupEntriesWithInclude_eq_nil (hclean a (List.mem_cons.mpr (Or.inl rfl)))]
      rw [List.nil_append]
      have hhas' : as.any (fun g => hasTag g t) = true := by
        rw [List.any_cons] at hhas
        rcases Bool.or_eq_true_iff.mp hhas with h | h
        · exact absurd h ha
        · exact h
      exact ih (fun g hg => hclean g (List.mem_cons.mpr (Or.inr hg))) hhas'

theorem groupEntries_newGroup (fp nf t : String) (htF : t ≠ "Filter") :
    groupEntriesWithInclude [(t, SA.scalar (newFileItem fp nf))] fp =
      [(t, newFileItem fp nf)] := by
  unfold groupEntriesWithInclude
  rw [List.flatMap_cons]
  rw [if_neg htF]
  simp [SA.toList, newFileItem]

/-- C3 (amended): when `moveFileToFilter` finds no existing association
for the file, it creates exactly one new entry, and the element tag of
that entry is `itemTypeFor` of the path: `ClCompile` for compiled-source
extensions, `ResourceCompile` for resource scripts, `Text` for the fixed
text-like list (.txt/.md/.xml/.json), and the header type `ClInclude` as
the default for every other extension. -/
theorem C3_new_entry_under_extension_type (doc : Doc) (fp nf : String)
    (h : docContainsInclude doc fp = false) :
    fileEntriesWithInclude (updateFileFilterInXML doc fp nf) fp =
      [(itemTypeFor fp, newFileItem fp nf)] := by
  have hclean := docContainsInclude_false h
  have htF := itemTypeFor_ne_filterTag fp
  unfold updateFileFilterInXML
  dsimp only
  rw [if_neg (by rw [h]; simp)]
  by_cases hhas : ((docGroups doc).any (fun g => hasTag g (itemTypeFor fp))) = true
  · rw [if_pos hhas]
    unfold fileEntriesWithInclude docGroups
    dsimp only
    rw [matchCollapse_toList]
    exact entries_mapFirstWhere htF hclean hhas
  · rw [if_neg hhas]
    unfold fileEntriesWithInclude docGroups
    dsimp only
    rw [matchCollapse_toList]
    rw [List.flatMap_append]
    have h1 : (docGroups doc).flatMap (fun g => groupEntriesWithInclude g fp) = [] := by
      rw [List.flatMap_eq_nil_iff]
      intro g hg
      exact groupEntriesWithInclude_eq_nil (hclean g hg)
    unfold docGroups at h1
    rw [h1, List.nil_append]
    rw [List.flatMap_cons]
    rw [groupEntries_newGroup fp nf (itemTypeFor fp) htF]
    rfl

/-- A sidecar whose `Project` has no `ItemGroup` at all. -/
def docNoItemGroup : Doc := { project := some { itemGroup := none } }

/-- C3 counterexample: a `.py` file — an extension outside all three
special lists — gets its new association created under the header tag
`ClInclude`, not under the generic `Text` type the claim asserts as the
fallback. -/
theorem C3_counterexample_py_is_header_not_text :
    updateFileFilterInXML docNoItemGroup "script.py" "Src" =
      { project := some { itemGroup := some (.scalar
          [("ClInclude", .scalar (newFileItem "script.py" "Src"))]) } } ∧
    itemTypeFor "script.py" = "ClInclude" ∧
    itemTypeFor "script.py" ≠ "Text" := by
  refine ⟨by decide, by decide, by decide⟩

/-- C3 witness inputs: `docStale` has no entry for `a.xyz`. -/
theorem C3_witness :
    fileEntriesWithInclude (updateFileFilterInXML docStale "a.xyz" "F") "a.xyz" =
      [(itemTypeFor "a.xyz", newFileItem "a.xyz" "F")] :=
  C3_new_entry_under_extension_type docStale "a.xyz" "F" (by decide)

/-! ## C8: createFilter / addFilterToXML and the GUID format -/

/-- The `<Filter>` definition entries of one group, read through its
`Filter` key. -/
def groupFilterDefs (g : Group) : List Entry :=
  match getTag g "Filter" with
  | none => []
  | some sa => sa.toList

/-- All `<Filter>` definition entries of the document, in order. -/
def filterDefs (doc : Doc) : List Entry :=
  (docGroups doc).flatMap groupFilterDefs

/-- The definitions of the FIRST item group holding a `Filter` key — the
only ones `addFilterToXML`'s existence check consults. -/
def firstFilterGroupDefs (doc : Doc) : List Entry :=
  match (docGroups doc).find? (fun g => hasTag g "Filter") with
  | none => []
  | some g => groupFilterDefs g

/-- A lower-case hexadecimal digit. -/
def isHexChar (c : Char) : Bool := "0123456789abcdef".data.contains c

/-- The GUID shape of the spec, checked position by position against the
template `xxxxxxxx-xxxx-4xxx-yxxx-xxxxxxxxxxxx`: a hex digit at each
`x`, one of `8/9/a/b` at the `y` (the sanitised variant nibble), and the
literal template character elsewhere — including the fixed version
nibble `'4'`. -/
def matchesTemplate : List Char → List Char → Bool
  | [], [] => true
  | [], _ :: _ => false
  | _ :: _, [] => false
  | t :: ts, c :: cs =>
    (if t = 'x' then isHexChar c
     else if t = 'y' then c == '8' || c == '9' || c == 'a' || c == 'b'
     else c == t) && matchesTemplate ts cs

theorem hexDigit_isHex {n : Nat} (h : n < 16) : isHexChar (hexDigit n) = true := by
  interval_cases n <;> decide

theorem hexDigit_variant {n : Nat} (h : n < 16) :
    ((hexDigit (Nat.lor (Nat.land n 3) 8) == '8') ||
     (hexDigit (Nat.lor (Nat.land n 3) 8) == '9') ||
     (hexDigit (Nat.lor (Nat.land n 3) 8) == 'a') ||
     (hexDigit (Nat.lor (Nat.land n 3) 8) == 'b')) = true := by
  interval_cases n <;> decide

theorem matchesTemplate_guidAux (rand : Nat → Nat) (hr : ∀ j, rand j < 16) :
    ∀ (ts : List Char) (i : Nat),
      matchesTemplate ts (generateGuidAux rand ts i) = true := by
  intro ts
  induction ts with
  | nil => intro i; rfl
  | cons t rest ih =>
    intro i
    by_cases hx : t = 'x'
    · subst hx
      show matchesTemplate ('x' :: rest) (generateGuidAux rand ('x' :: rest) i) = true
      unfold generateGuidAux
      rw [if_pos rfl]
      unfold matchesTemplate
      rw [if_pos rfl]
      rw [hexDigit_isHex (hr i), ih (i + 1)]
      rfl
    · by_cases hy : t = 'y'
      · subst hy
        show matchesTemplate ('y' :: rest) (generateGuidAux rand ('y' :: rest) i) = true
        unfold generateGuidAux
        rw [if_neg (by decide), if_pos rfl]
        unfold matchesTemplate
        rw [if_neg (by decide), if_pos rfl]
        rw [Bool.and_eq_true, ih (i + 1)]
        refine ⟨?_, rfl⟩
        have := hexDigit_variant (hr i)
        simpa using this
      · unfold generateGuidAux
        rw [if_neg hx, if_neg hy]
        unfold matchesTemplate
        rw [if_neg hx, if_neg hy]
        rw [Bool.and_eq_true, ih i]
        exact ⟨by simp, rfl⟩

/-- The generated identifier always matches the claimed v4 GUID format. -/
theorem generateGuid_matches (rand : Nat → Nat) (hr : ∀ j, rand j < 16) :
    matchesTemplate guidTemplate (generateGuid rand).data = true :=
  matchesTemplate_guidAux rand hr guidTemplate 0

theorem groupFilterDefs_of_not_hasTag {g : Group}
    (h : hasTag g "Filter" = false) : groupFilterDefs g = [] := by
  unfold groupFilterDefs
  unfold hasTag at h
  cases hgt : getTag g "Filter" with
  | none => rfl
  | some sa => rw [hgt] at h; cases h

theorem groupFilterDefs_addDef {fp : String} {rand : Nat → Nat} :
    ∀ {g : Group}, hasTag g "Filter" = true →
      groupFilterDefs (mapFirstWhere (fun pr => pr.1 = "Filter")
        (addDefToFilterPair fp rand) g) =
      (if (groupFilterDefs g).any (fun f => f.includeAttr = some fp)
       then groupFilterDefs g
       else groupFilterDefs g ++ [newFilterDef fp rand]) := by
  intro g
  induction g with
  | nil => intro ha; simp [hasTag, getTag] at ha
  | cons q rest ih =>
    intro ha
    by_cases hq : q.1 = "Filter"
    · unfold mapFirstWhere
      rw [if_pos (by simp [hq])]
      have hdefs : groupFilterDefs (q :: rest) = q.2.toList := by
        unfold groupFilterDefs getTag
        rw [List.find?_cons_of_pos]
        · rfl
        · simp [hq]
      rw [hdefs]
      unfold addDefToFilterPair
      dsimp only
      by_cases hex : (q.2.toList.any (fun f => f.includeAttr = some fp)) = true
      · rw [if_pos hex, if_pos hex]
        unfold groupFilterDefs getTag
        rw [List.find?_cons_of_pos]
        · rfl
        · simp [hq]
      · rw [if_neg hex, if_neg hex]
        unfold groupFilterDefs getTag
        rw [List.find?_cons_of_pos]
        · rfl
        · simp [hq]
    · unfold mapFirstWhere
      rw [if_neg (by simp [hq])]
      have ha' : hasTag rest "Filter" = true := by
        unfold hasTag getTag at ha ⊢
        rw [List.find?_cons_of_neg] at ha
        · exact ha
        · simp [hq]
      have hskip : ∀ (r : List (String × SA Entry)),
          groupFilterDefs (q :: r) = groupFilterDefs r := by
        intro r
        unfold groupFilterDefs getTag
        rw [List.find?_cons_of_neg]
        simp [hq]
      rw [hskip, hskip]
      exact ih ha'

theorem filterDefs_flatMap_add (fp : String) (rand : Nat → Nat) :
    ∀ {gs : List Group}, gs.any (fun g => hasTag g "Filter") = true →
      (((match gs.find? (fun g => hasTag g "Filter") with
         | none => []
         | some g => groupFilterDefs g).any (fun f => f.includeAttr = some fp)) = true →
        (mapFirstWhere (fun g => hasTag g "Filter")
            (fun g => mapFirstWhere (fun pr => pr.1 = "Filter")
              (addDefToFilterPair fp rand) g) gs).flatMap groupFilterDefs =
          gs.flatMap groupFilterDefs) ∧
      (((match gs.find? (fun g => hasTag g "Filter") with
         | none => []
         | some g => groupFilterDefs g).any (fun f => f.includeAttr = some fp)) = false →
        ((mapFirstWhere (fun g => hasTag g "Filter")
            (fun g => mapFirstWhere (fun pr => pr.1 = "Filter")
              (addDefToFilterPair fp rand) g) gs).flatMap groupFilterDefs).Perm
          (newFilterDef fp rand :: gs.flatMap groupFilterDefs)) := by
  intro gs
  induction gs with
  | nil => intro h; cases h
  | cons a as ih =>
    intro hhas
    by_cases ha : hasTag a "Filter" = true
    · have hfind : (a :: as).find? (fun g => hasTag g "Filter") = some a :=
        List.find?_cons_of_pos _ ha
      rw [hfind]
      unfold mapFirstWhere
      rw [if_pos ha]
      rw [List.flatMap_cons, List.flatMap_cons]
      rw [groupFilterDefs_addDef ha]
      constructor
      · intro hex
        rw [if_pos hex]
      · intro hex
        rw [if_neg (by rw [hex]; simp)]
        rw [List.append_assoc]
        exact List.perm_middle
    · have hb : hasTag a "Filter" = false := by
        cases h : hasTag a "Filter"
        · rfl
        · exact absurd h ha
      have hfind : (a :: as).find? (fun g => hasTag g "Filter") =
          as.find? (fun g => hasTag g "Filter") :=
        List.find?_cons_of_neg _ (by rw [hb]; simp)
      rw [hfind]
      unfold mapFirstWhere
      rw [if_neg (by rw [hb]; simp)]
      rw [List.flatMap_cons, List.flatMap_cons]
      rw [groupFilterDefs_of_not_hasTag hb]
      rw [List.nil_append, List.nil_append]
      have hhas' : as.any (fun g => hasTag g "Filter") = true := by
        rw [List.any_cons] at hhas
        rcases Bool.or_eq_true_iff.mp hhas with h | h
        · exact absurd h ha
        · exact h
      exact ih hhas'

/-- C8 (amended): `createFilter`'s `addFilterToXML` checks only the FIRST
`Filter`-bearing item group for an existing definition — if `newPath` is
defined there, the definition list is unchanged (a no-op); otherwise it
adds exactly one definition carrying the freshly generated identifier,
and every identifier `generateGuid` produces matches the GUID template
`xxxxxxxx-xxxx-4xxx-yxxx-xxxxxxxxxxxx` with the version nibble fixed at
`'4'` and the variant nibble sanitised to `8/9/a/b`. -/
theorem C8_addFilter_first_group_and_guid (doc : Doc) (p : String)
    (rand : Nat → Nat) (hr : ∀ i, rand i < 16) :
    (((firstFilterGroupDefs doc).any (fun f => f.includeAttr = some p)) = true →
      filterDefs (addFilterToXML doc p rand) = filterDefs doc) ∧
    (((firstFilterGroupDefs doc).any (fun f => f.includeAttr = some p)) = false →
      (filterDefs (addFilterToXML doc p rand)).Perm
        (newFilterDef p rand :: filterDefs doc)) ∧
    matchesTemplate guidTemplate (generateGuid rand).data = true := by
  refine ⟨?_, ?_, generateGuid_matches rand hr⟩
  · intro hex
    by_cases hhas : ((docGroups doc).any (fun g => hasTag g "Filter")) = true
    · unfold addFilterToXML
      dsimp only
      rw [if_pos hhas]
      unfold filterDefs docGroups
      dsimp only
      unfold SA.toList
      have hmain := (filterDefs_flatMap_add p rand hhas).1
        (by unfold firstFilterGroupDefs at hex; exact hex)
      unfold docGroups at hmain
      exact hmain
    · exfalso
      rw [Bool.not_eq_true] at hhas
      have hnone : (docGroups doc).find? (fun g => hasTag g "Filter") = none := by
        rw [List.find?_eq_none]
        intro g hg
        have hfb := List.any_eq_false.mp hhas g hg
        simpa using hfb
      unfold firstFilterGroupDefs at hex
      rw [hnone] at hex
      cases hex
  · intro hex
    by_cases hhas : ((docGroups doc).any (fun g => hasTag g "Filter")) = true
    · unfold addFilterToXML
      dsimp only
      rw [if_pos hhas]
      unfold filterDefs docGroups
      dsimp only
      unfold SA.toList
      have hmain := (filterDefs_flatMap_add p rand hhas).2
        (by unfold firstFilterGroupDefs at hex; exact hex)
      unfold docGroups at hmain
      exact hmain
    · unfold addFilterToXML
      dsimp only
      rw [if_neg hhas]
      unfold filterDefs docGroups
      dsimp only
      unfold SA.toList
      rw [List.flatMap_append]
      have hnewg : ([[("Filter", SA.array [newFilterDef p rand])]] :
          List Group).flatMap groupFilterDefs = [newFilterDef p rand] := by
        rw [List.flatMap_cons]
        unfold groupFilterDefs getTag
        rw [List.find?_cons_of_pos _ (by simp)]
        rfl
      rw [hnewg]
      have hperm := List.perm_append_singleton (newFilterDef p rand)
        ((docGroups doc).flatMap groupFilterDefs)
      unfold docGroups at hperm
      exact hperm

/-- A fixed all-zero random stream. -/
def randZero : Nat → Nat := fun _ => 0

/-- C8 witness: on the sample sidecar, adding already-defined `"A"`
leaves the definition list unchanged; adding `"New"` adds exactly that
one definition; the generated identifier matches the GUID template. -/
theorem C8_witness :
    (filterDefs (addFilterToXML docSiblings "A" randZero) = filterDefs docSiblings) ∧
    ((filterDefs (addFilterToXML docSiblings "New" randZero)).Perm
      (newFilterDef "New" randZero :: filterDefs docSiblings)) ∧
    matchesTemplate guidTemplate (generateGuid randZero).data = true :=
  ⟨(C8_addFilter_first_group_and_guid docSiblings "A" randZero
      (fun i => Nat.zero_lt_succ 15)).1 (by decide),
   (C8_addFilter_first_group_and_guid docSiblings "New" randZero
      (fun i => Nat.zero_lt_succ 15)).2.1 (by decide),
   (C8_addFilter_first_group_and_guid docSiblings "New" randZero
      (fun i => Nat.zero_lt_succ 15)).2.2⟩

/-- Two item groups each holding `Filter` definitions; `"A"` is defined
only in the SECOND one. -/
def docTwoFilterGroups : Doc :=
  { project := some { itemGroup := some (.array
      [[("Filter", .scalar { includeAttr := some "Other", uid := some "u4" })],
       [("Filter", .scalar { includeAttr := some "A", uid := some "u5" })]]) } }

/-- C8 counterexample: `"A"` already has an explicit definition — in the
second `Filter`-bearing group — yet `addFilterToXML` is NOT a no-op: it
checks only the first such group and pushes a duplicate definition of
`"A"` there, leaving two definitions in the document. -/
theorem C8_counterexample_duplicate_definition :
    (filterDefs docTwoFilterGroups).countP
      (fun f => f.includeAttr = some "A") = 1 ∧
    (filterDefs (addFilterToXML docTwoFilterGroups "A" randZero)).countP
      (fun f => f.includeAttr = some "A") = 2 := by
  refine ⟨by decide, by decide⟩

end VSFilters
